import Mathlib

/-!
Verification of the `bzip2` command-line orchestrator (`cmd/bzip2/main.go`).

Paths and file names are modelled as lists of characters (`Str`), and the
Go library functions the program uses (`strings.SplitN`, `strings.Join`,
`strings.HasSuffix`, `path.Split`) are embedded with their Go semantics.
The filesystem and the external codec are abstracted by an oracle record
`FS`; `processFile` is a pure function returning the job's error, the
resolved output path, and the trace of filesystem effects it performed.
-/

namespace Bzip2

/-- Character-list model of Go strings (paths, names, suffixes). -/
abbrev Str := List Char

/-- The `"-"` sentinel meaning standard input. -/
def dash : Str := ['-']

/-- The literal `".out"` fallback extension used in decompress mode. -/
def outExt : Str := ['.', 'o', 'u', 't']

/-- Unlimited split on a separator character, Go `strings.Split(s, string c)`:
`splitAll c "" = [""]`, and each occurrence of `c` starts a new field. -/
def splitAll (c : Char) : Str → List Str
  | [] => [[]]
  | x :: xs => if x = c then [] :: splitAll c xs else (splitAll c xs).modifyHead (x :: ·)

/-- Go `strings.SplitN(s, string c, n)`: at most `n` fields, the last field
keeps any remaining separators; `n = 0` yields the empty list. -/
def splitN (c : Char) : Str → Nat → List Str
  | _, 0 => []
  | s, 1 => [s]
  | [], _ + 2 => [[]]
  | x :: xs, n + 2 =>
      if x = c then [] :: splitN c xs (n + 1)
      else (splitN c xs (n + 2)).modifyHead (x :: ·)

/-- Go `strings.Join(parts, ".")`. -/
def joinDot : List Str → Str
  | [] => []
  | [p] => p
  | p :: ps => p ++ '.' :: joinDot ps

/-- Go `path.Split(p)`: splits after the final slash into directory
(with trailing slash) and file name. -/
def pathSplit : Str → Str × Str
  | [] => ([], [])
  | c :: cs =>
      if ('/' : Char) ∈ cs then
        let (d, f) := pathSplit cs
        (c :: d, f)
      else if c = '/' then ([c], cs)
      else ([], c :: cs)

theorem pathSplit_append (p : Str) : (pathSplit p).1 ++ (pathSplit p).2 = p := by
  induction p with
  | nil => rfl
  | cons c cs ih =>
    by_cases h : ('/' : Char) ∈ cs
    · simp only [pathSplit, if_pos h]
      cases hp : pathSplit cs with
      | mk d f =>
        simp only
        rw [hp] at ih
        simp only at ih
        simp [List.cons_append, ih]
    · by_cases hc : c = '/'
      · simp [pathSplit, h, hc]
      · simp [pathSplit, h, hc]

theorem splitAll_ne_nil (c : Char) (s : Str) : splitAll c s ≠ [] := by
  induction s with
  | nil => simp [splitAll]
  | cons x xs ih =>
    by_cases h : x = c
    · simp [splitAll, h]
    · simp only [splitAll, if_neg h]
      intro hcon
      have := List.length_modifyHead (f := (x :: ·)) (l := splitAll c xs)
      rw [hcon] at this
      simp at this
      exact ih (List.length_eq_zero.mp this.symm)

theorem splitAll_no_sep (c : Char) (s : Str) (h : c ∉ s) : splitAll c s = [s] := by
  induction s with
  | nil => rfl
  | cons x xs ih =>
    simp only [List.mem_cons, not_or] at h
    have hx : ¬ x = c := fun he => h.1 he.symm
    simp [splitAll, hx, ih h.2]

theorem splitAll_append_sep (c : Char) (t : Str) (ht : c ∉ t) :
    ∀ p : Str, splitAll c (p ++ c :: t) = splitAll c p ++ [t] := by
  intro p
  induction p with
  | nil =>
    simp [splitAll, splitAll_no_sep c t ht]
  | cons x xs ih =>
    by_cases h : x = c
    · simp [splitAll, h, ih]
    · simp only [List.cons_append, splitAll, if_neg h]
      rw [show xs.append (c :: t) = xs ++ c :: t from rfl, ih]
      cases hs : splitAll c xs with
      | nil => exact absurd hs (splitAll_ne_nil c xs)
      | cons a l => rfl

theorem joinDot_splitAll (c : Char) (hc : c = '.') (s : Str) :
    joinDot (splitAll c s) = s := by
  subst hc
  induction s with
  | nil => rfl
  | cons x xs ih =>
    by_cases h : x = '.'
    · simp only [splitAll, if_pos h]
      cases hs : splitAll '.' xs with
      | nil => exact absurd hs (splitAll_ne_nil _ _)
      | cons a l =>
        rw [hs] at ih
        cases l with
        | nil =>
          simp only [joinDot] at ih ⊢
          simp [h, ih]
        | cons b l' =>
          simp only [joinDot] at ih ⊢
          simp [h, ih]
    · simp only [splitAll, if_neg h]
      cases hs : splitAll '.' xs with
      | nil => exact absurd hs (splitAll_ne_nil _ _)
      | cons a l =>
        rw [hs] at ih
        cases l with
        | nil =>
          simp only [List.modifyHead, joinDot] at ih ⊢
          rw [ih]
        | cons b l' =>
          simp only [List.modifyHead, joinDot] at ih ⊢
          rw [List.cons_append, ih]

theorem splitN_eq_splitAll (c : Char) (s : Str) :
    ∀ n : Nat, s.count c < n → splitN c s n = splitAll c s := by
  induction s with
  | nil =>
    intro n hn
    match n with
    | 1 => rfl
    | m + 2 => rfl
  | cons x xs ih =>
    intro n hn
    by_cases h : x = c
    · subst h
      rw [List.count_cons_self] at hn
      match n with
      | 1 => omega
      | m + 2 =>
        simp only [splitN, splitAll, if_pos rfl]
        rw [ih (m + 1) (by omega)]
        simp
    · have h' : ¬ c = x := fun he => h he.symm
      have hcount : (x :: xs).count c = xs.count c := by
        simp [List.count_cons, h']
      rw [hcount] at hn
      match n with
      | 1 =>
        have hz : xs.count c = 0 := by omega
        have hnot : c ∉ xs := by
          intro hmem
          exact absurd hz (by simpa using (List.count_pos_iff).mpr hmem |>.ne')
        simp only [splitN, splitAll, if_neg h, splitAll_no_sep c xs hnot,
          List.modifyHead]
      | m + 2 =>
        simp only [splitN, splitAll, if_neg h]
        rw [ih (m + 2) (by omega)]

theorem splitN_ne_nil (c : Char) (s : Str) : ∀ n : Nat, 1 ≤ n → splitN c s n ≠ [] := by
  induction s with
  | nil =>
    intro n hn
    match n with
    | 1 => simp [splitN]
    | m + 2 => simp [splitN]
  | cons x xs ih =>
    intro n hn
    match n with
    | 1 => simp [splitN]
    | m + 2 =>
      by_cases h : x = c
      · simp [splitN, h]
      · simp only [splitN, if_neg h]
        intro hcon
        have hl := congrArg List.length hcon
        rw [List.length_modifyHead] at hl
        exact ih (m + 2) (by omega) (List.length_eq_zero.mp hl)

theorem joinDot_splitN (c : Char) (hc : c = '.') (s : Str) :
    ∀ n : Nat, 1 ≤ n → joinDot (splitN c s n) = s := by
  subst hc
  induction s with
  | nil =>
    intro n hn
    match n with
    | 1 => rfl
    | m + 2 => rfl
  | cons x xs ih =>
    intro n hn
    match n with
    | 1 => rfl
    | m + 2 =>
      by_cases h : x = '.'
      · simp only [splitN, if_pos h]
        have := ih (m + 1) (by omega)
        cases hs : splitN '.' xs (m + 1) with
        | nil => exact absurd hs (splitN_ne_nil '.' xs (m + 1) (by omega))
        | cons a l =>
          rw [hs] at this
          cases l with
          | nil =>
            simp only [joinDot] at this ⊢
            simp [h, this]
          | cons b l' =>
            simp only [joinDot] at this ⊢
            simp [h, this]
      · simp only [splitN, if_neg h]
        have := ih (m + 2) (by omega)
        cases hs : splitN '.' xs (m + 2) with
        | nil => exact absurd hs (splitN_ne_nil '.' xs (m + 2) (by omega))
        | cons a l =>
          rw [hs] at this
          cases l with
          | nil =>
            simp only [List.modifyHead, joinDot] at this ⊢
            rw [this]
          | cons b l' =>
            simp only [List.modifyHead, joinDot] at this ⊢
            rw [List.cons_append, this]

/-- Result of `os.Lstat`/`os.Stat`: a regular file or a directory. -/
inductive Entry
  | file
  | dir
  deriving DecidableEq, Repr

/-- Oracle for the host filesystem and the external codec: what each
system call would return during this run. -/
structure FS where
  lookup : Str → Option Entry
  openOk : Str → Bool
  createOk : Str → Bool
  removeOk : Str → Bool
  decodeOk : Bool
  encodeOk : Bool
  copyOk : Bool

/-- Filesystem/diagnostic effects a job performs, in order. `lstat` is
`os.Lstat` inside `processFile`; `statE` is `os.Stat` in the dispatcher;
`warn` is the missing-suffix warning pair printed to stderr; `okLine` is
the verbose `"<path>: OK"` line of test mode. -/
inductive Eff
  | lstat (p : Str)
  | statE (p : Str)
  | openI (p : Str)
  | create (p : Str)
  | removeE (p : Str)
  | warn
  | okLine (p : Str)
  deriving DecidableEq, Repr

/-- Abstract error values of `processFile` (the Go code returns
`error` values built with `fmt.Errorf`; only their identity matters). -/
inductive PErr
  | stdoutSuffixConflict
  | stdoutForceConflict
  | stdoutKeepConflict
  | statErr (p : Str)
  | isDirErr (p : Str)
  | stdinNeedsStdout
  | stdinSuffixConflict
  | emptySuffix
  | cantStrip (p : Str)
  | alreadyHasSuffix (p : Str)
  | outExists (p : Str)
  | outIsDir (p : Str)
  | removeErr (p : Str)
  | openErr (p : Str)
  | createErr (p : Str)
  | corrupted
  | copyFailed
  deriving DecidableEq, Repr

/-- Flag state after `getopt.Parse` (plus whether `-S` was explicitly
given, which `setByUser "S"` reports). -/
structure Flags where
  stdout : Bool
  decompress : Bool
  force : Bool
  verbose : Bool
  keep : Bool
  test : Bool
  recursive : Bool
  suffix : Str
  level : Nat
  sSetByUser : Bool
  deriving DecidableEq, Repr

/-- Outcome of one `processFile` call: the returned error (if any), the
`outFilePath` variable when it was assigned, and the effect trace. -/
structure PFResult where
  err : Option PErr
  outPath : Option Str
  effs : List Eff
  deriving DecidableEq, Repr

/-- Conflicting-flag checks at the top of `processFile`
(main.go lines 75-83). -/
def conflictCheck (fl : Flags) : Option PErr :=
  if fl.stdout && fl.sSetByUser then some .stdoutSuffixConflict
  else if fl.stdout && fl.force then some .stdoutForceConflict
  else if fl.stdout && fl.keep then some .stdoutKeepConflict
  else none

/-- Test mode of `processFile` (main.go lines 88-116): open the input
(standard input for `"-"`), decode into `io.Discard`, print `OK` when
verbose; no output path, no create, no remove. -/
def testRun (fl : Flags) (fs : FS) (inPath : Str) : PFResult :=
  if inPath = dash then
    if !fs.decodeOk then ⟨some .corrupted, none, []⟩
    else if !fs.copyOk then ⟨some .copyFailed, none, []⟩
    else ⟨none, none, if fl.verbose then [.okLine inPath] else []⟩
  else
    if !fs.openOk inPath then ⟨some (.openErr inPath), none, [.openI inPath]⟩
    else if !fs.decodeOk then ⟨some .corrupted, none, [.openI inPath]⟩
    else if !fs.copyOk then ⟨some .copyFailed, none, [.openI inPath]⟩
    else ⟨none, none,
      .openI inPath :: (if fl.verbose then [.okLine inPath] else [])⟩

/-- Output-name derivation of `processFile` (main.go lines 144-170):
decompress strips the last dot-component when the base name carries
`"." + suffix` (via `strings.SplitN`/`strings.Join`), or falls back to
`input + ".out"` with a warning; compress rejects inputs already ending
in the suffix and appends `"." + suffix`. -/
def deriveOutName (fl : Flags) (inPath : Str) : Except PErr (Str × List Eff) :=
  let fext : Str := '.' :: fl.suffix
  if fl.decompress then
    let d := (pathSplit inPath).1
    let f := (pathSplit inPath).2
    if fext <:+ f then
      if f.length > fext.length then
        let nstr := splitN '.' f f.length
        let estr := joinDot nstr.dropLast
        .ok (d ++ estr, [])
      else .error (.cantStrip inPath)
    else .ok (d ++ f ++ outExt, [.warn])
  else
    if fext <:+ inPath then .error (.alreadyHasSuffix inPath)
    else .ok (inPath ++ '.' :: fl.suffix, [])

/-- Input validation and output resolution of `processFile`
(main.go lines 118-187): stdin-mode checks, `os.Lstat` on the input,
directory rejection, empty-suffix rejection, name derivation, and the
overwrite policy on an existing output (`-f` removes it first).
Returns the destination (`none` = standard output) and the effects. -/
def checkInput (fl : Flags) (stdinG : Bool) (fs : FS) (inPath : Str) :
    Except (PErr × List Eff) (Option Str × List Eff) :=
  if stdinG then
    if !fl.stdout then .error (.stdinNeedsStdout, [])
    else if fl.sSetByUser then .error (.stdinSuffixConflict, [])
    else .ok (none, [])
  else
    match fs.lookup inPath with
    | none => .error (.statErr inPath, [.lstat inPath])
    | some .dir => .error (.isDirErr inPath, [.lstat inPath])
    | some .file =>
      if fl.stdout then .ok (none, [.lstat inPath])
      else
        if fl.suffix = [] then .error (.emptySuffix, [.lstat inPath])
        else
          match deriveOutName fl inPath with
          | .error e => .error (e, [.lstat inPath])
          | .ok (outP, weffs) =>
            match fs.lookup outP with
            | none => .ok (some outP, [.lstat inPath] ++ weffs ++ [.lstat outP])
            | some ent =>
              if !fl.force then
                .error (.outExists outP, [.lstat inPath] ++ weffs ++ [.lstat outP])
              else if ent = .dir then
                .error (.outIsDir outP, [.lstat inPath] ++ weffs ++ [.lstat outP])
              else if !fs.removeOk outP then
                .error (.removeErr outP,
                  [.lstat inPath] ++ weffs ++ [.lstat outP, .removeE outP])
              else
                .ok (some outP,
                  [.lstat inPath] ++ weffs ++ [.lstat outP, .removeE outP])

/-- Streaming transfer of `processFile` (main.go lines 189-311): a
producer goroutine opens the input and feeds the pipe (encoding when
compressing), the main goroutine creates the output (or uses standard
output) and drains the pipe (decoding when decompressing). A failure on
either side surfaces as the transfer's error through the pipe.
`outDest = none` means standard output. -/
def transfer (fl : Flags) (fs : FS) (inPath : Str) (outDest : Option Str) :
    Option PErr × List Eff :=
  let openEffs : List Eff := if inPath = dash then [] else [.openI inPath]
  let createEffs : List Eff := match outDest with
    | none => []
    | some o => [.create o]
  let effs := openEffs ++ createEffs
  if inPath ≠ dash ∧ fs.openOk inPath = false then (some (.openErr inPath), effs)
  else if fl.decompress ∧ fs.decodeOk = false then (some .corrupted, effs)
  else if fl.decompress = false ∧ fs.encodeOk = false then (some .corrupted, effs)
  else
    match outDest with
    | some o =>
      if fs.createOk o = false then (some (.createErr o), effs)
      else if fs.copyOk = false then (some .copyFailed, effs)
      else (none, effs)
    | none =>
      if fs.copyOk = false then (some .copyFailed, effs)
      else (none, effs)

/-- Original-file cleanup of `processFile` (main.go lines 313-321):
after a successful transfer the input is removed unless writing to
standard output, `-k` is set, or the input is `"-"`. -/
def cleanup (fl : Flags) (fs : FS) (inPath : Str) (outPath : Option Str)
    (effs : List Eff) : PFResult :=
  if fl.stdout = false ∧ fl.keep = false ∧ inPath ≠ dash then
    if fs.removeOk inPath then ⟨none, outPath, effs ++ [.removeE inPath]⟩
    else ⟨some (.removeErr inPath), outPath, effs ++ [.removeE inPath]⟩
  else ⟨none, outPath, effs⟩

/-- The whole of `processFile` (main.go lines 73-322): conflicting-flag
checks, test mode, input validation and output resolution, the piped
transfer, and the cleanup of the original file. -/
def processFile (fl : Flags) (stdinG : Bool) (fs : FS) (inPath : Str) :
    PFResult :=
  match conflictCheck fl with
  | some e => ⟨some e, none, []⟩
  | none =>
    if fl.test then testRun fl fs inPath
    else
      match checkInput fl stdinG fs inPath with
      | .error (e, effs) => ⟨some e, none, effs⟩
      | .ok (outDest, effs1) =>
        match transfer fl fs inPath outDest with
        | (some e, effs2) => ⟨some e, outDest, effs1 ++ effs2⟩
        | (none, effs2) => cleanup fl fs inPath outDest (effs1 ++ effs2)

/-- Entries yielded by `filepath.Walk` over a directory argument: a
traversal error for some entry, or a visited file/directory. -/
inductive WalkItem
  | errItem (p : Str)
  | item (p : Str) (isDir : Bool)
  deriving DecidableEq, Repr

/-- Walk model: what `filepath.Walk` yields for a directory root. -/
def FS.walk (_ : FS) (items : Str → List WalkItem) (root : Str) :
    List WalkItem := items root

/-- Handling of one `filepath.Walk` entry (main.go lines 442-459):
traversal errors are recorded and skipped; directories are skipped;
regular files run `processFile`. -/
def runWalkItem (fl : Flags) (stdinG : Bool) (fs : FS) :
    WalkItem → Bool × List Eff
  | .errItem _ => (false, [])
  | .item _ true => (true, [])
  | .item p false =>
    let r := processFile fl stdinG fs p
    (r.err.isNone, r.effs)

/-- One iteration of main's dispatch loop (main.go lines 419-480): a
`"-"` argument is handed to `processFile` directly; otherwise the path
is `os.Stat`-ed, directories are walked when `-r` is set (or rejected),
and regular files run `processFile`. The `Bool` is success. -/
def runOne (fl : Flags) (stdinG : Bool) (fs : FS) (items : Str → List WalkItem)
    (p : Str) : Bool × List Eff :=
  if p = dash then
    let r := processFile fl stdinG fs p
    (r.err.isNone, r.effs)
  else
    match fs.lookup p with
    | none => (false, [.statE p])
    | some .file =>
      let r := processFile fl stdinG fs p
      (r.err.isNone, .statE p :: r.effs)
    | some .dir =>
      if fl.recursive then
        let rs := (fs.walk items p).map (runWalkItem fl stdinG fs)
        (rs.all (·.1), .statE p :: (rs.map (·.2)).flatten)
      else (false, [.statE p])

/-- All jobs of one run, in argument order (each argument is an
independent goroutine; the trace interleaving is abstracted away). -/
def runAll (fl : Flags) (stdinG : Bool) (fs : FS) (items : Str → List WalkItem)
    (paths : List Str) : List (Bool × List Eff) :=
  paths.map (runOne fl stdinG fs items)

/-- Final exit status (main.go lines 483-486): `hasErrors` is set by any
failing job or traversal entry; `os.Exit(1)` when set, otherwise 0. -/
def mainExit (fl : Flags) (stdinG : Bool) (fs : FS)
    (items : Str → List WalkItem) (paths : List Str) : Nat :=
  if (runAll fl stdinG fs items paths).all (·.1) then 0 else 1

/-- One transition of the concurrency gate
(`sem := make(chan struct{}, cores)`, main.go lines 413-422): a job
acquires a slot (`sem <- struct{}{}`) only when the buffered channel has
room, and releases it (`<-sem`) only when it holds one. The state is the
number of concurrently admitted jobs; each job's implicit producer
goroutine runs inside its job's single slot. -/
inductive GateStep (cap : Nat) : Nat → Nat → Prop
  | acquire {h : Nat} : h < cap → GateStep cap h (h + 1)
  | release {h : Nat} : 0 < h → GateStep cap h (h - 1)

/-- Gate states reachable from an empty gate. -/
inductive GateReach (cap : Nat) : Nat → Prop
  | init : GateReach cap 0
  | step {h h' : Nat} : GateReach cap h → GateStep cap h h' → GateReach cap h'

/-- Byte-stream model of `io.Copy`: bytes pass through unchanged. -/
def ioCopy (bs : List Nat) : List Nat := bs

/-- Byte-stream model of the `io.Pipe` conduit: bytes written to `pw`
come out of `pr` unchanged and in order. -/
def pipeConduit (bs : List Nat) : List Nat := bs

/-- Byte-level view of the compress transfer (main.go lines 248-311):
the producer copies the input into the encoder, whose output feeds the
pipe; the consumer copies the pipe to the destination. -/
def compressBytes (enc : Nat → List Nat → List Nat) (lvl : Nat)
    (input : List Nat) : List Nat :=
  ioCopy (pipeConduit (enc lvl (ioCopy input)))

/-- Byte-level view of the decompress transfer (main.go lines 195-247):
the producer copies the raw input into the pipe; the consumer reads the
decoder applied to the pipe and copies it to the destination. -/
def decompressBytes (dec : List Nat → List Nat) (input : List Nat) :
    List Nat :=
  ioCopy (dec (pipeConduit (ioCopy input)))

/-- Default flag state: plain `bzip2 FILE` with no options. -/
def flDefault : Flags :=
  { stdout := false, decompress := false, force := false, verbose := false,
    keep := false, test := false, recursive := false,
    suffix := ['b', 'z', '2'], level := 9, sSetByUser := false }

/-- Filesystem oracle with no entries and all operations succeeding. -/
def fsEmpty : FS :=
  { lookup := fun _ => none, openOk := fun _ => true,
    createOk := fun _ => true, removeOk := fun _ => true,
    decodeOk := true, encodeOk := true, copyOk := true }

/-- C1: for every input byte sequence and every level in 1..9, the
compress transfer followed by the decompress transfer restores the input
byte-for-byte, assuming the external codec's encode and decode streams
are mutual inverses — the plumbing (`io.Copy` on both sides of the
`io.Pipe` conduit) preserves the byte stream in both directions. -/
theorem roundtrip_compress_decompress
    (enc : Nat → List Nat → List Nat) (dec : List Nat → List Nat)
    (hinv : ∀ l x, 1 ≤ l → l ≤ 9 → dec (enc l x) = x)
    (lvl : Nat) (h1 : 1 ≤ lvl) (h9 : lvl ≤ 9) (X : List Nat) :
    decompressBytes dec (compressBytes enc lvl X) = X := by
  simp [decompressBytes, compressBytes, ioCopy, pipeConduit, hinv lvl X h1 h9]

/-- Witness for C1 at a concrete codec pair, level 3 and input. -/
theorem roundtrip_compress_decompress_witness :
    decompressBytes List.tail (compressBytes (fun l x => l :: x) 3 [7, 8, 9]) =
      [7, 8, 9] :=
  roundtrip_compress_decompress (fun l x => l :: x) List.tail
    (fun _ _ _ _ => rfl) 3 (by decide) (by decide) [7, 8, 9]

/-- C9: for every core budget N in [1,32], every reachable state of the
concurrency gate admits at most N concurrently running jobs (each job's
implicit producer goroutine runs within that job's single slot). -/
theorem gate_holders_le_cores (N : Nat) (h1 : 1 ≤ N) (h32 : N ≤ 32)
    (h : Nat) (hr : GateReach N h) : h ≤ N := by
  induction hr with
  | init => omega
  | step _ hs ih =>
    cases hs with
    | acquire hlt => omega
    | release hpos => omega

/-- Witness for C9: the gate with budget 2, after two admissions,
holds 2 ≤ 2 jobs. -/
theorem gate_holders_le_cores_witness : 1 ≤ 2 ∧ 2 ≤ 32 ∧ 2 ≤ 2 :=
  ⟨by decide, by decide,
    gate_holders_le_cores 2 (by decide) (by decide) 2
      (GateReach.step
        (GateReach.step GateReach.init (GateStep.acquire (by decide)))
        (GateStep.acquire (by decide)))⟩

/-- C10: for a compress- or decompress-mode job writing to a named
output file (not standard output, input not standard input), an empty
configured suffix makes the job fail before any output path is derived
and before any filesystem write or removal occurs. -/
theorem emptySuffix_fails_early (fl : Flags) (stdinG : Bool) (fs : FS)
    (inPath : Str) (htest : fl.test = false) (hstdout : fl.stdout = false)
    (hstdin : stdinG = false) (hdash : inPath ≠ dash)
    (hsuf : fl.suffix = []) :
    (processFile fl stdinG fs inPath).err.isSome = true ∧
    (processFile fl stdinG fs inPath).outPath = none ∧
    ∀ q : Str, Eff.create q ∉ (processFile fl stdinG fs inPath).effs ∧
      Eff.removeE q ∉ (processFile fl stdinG fs inPath).effs := by
  have hcc : conflictCheck fl = none := by simp [conflictCheck, hstdout]
  cases hfs : fs.lookup inPath with
  | none =>
    simp [processFile, hcc, htest, checkInput, hstdin, hfs]
  | some e =>
    cases e with
    | file =>
      simp [processFile, hcc, htest, checkInput, hstdin, hfs, hstdout, hsuf]
    | dir =>
      simp [processFile, hcc, htest, checkInput, hstdin, hfs]

/-- Witness for C10: default flags with an empty suffix on input `"a"`. -/
theorem emptySuffix_fails_early_witness :
    (processFile { flDefault with suffix := [] } false fsEmpty ['a']).err.isSome
        = true ∧
    (processFile { flDefault with suffix := [] } false fsEmpty ['a']).outPath
        = none ∧
    ∀ q : Str,
      Eff.create q ∉
        (processFile { flDefault with suffix := [] } false fsEmpty ['a']).effs ∧
      Eff.removeE q ∉
        (processFile { flDefault with suffix := [] } false fsEmpty ['a']).effs :=
  emptySuffix_fails_early { flDefault with suffix := [] } false fsEmpty ['a']
    rfl rfl rfl (by decide) rfl

theorem strip_last_component (f' S : Str) (hS : S ≠ []) (hnd : ('.' : Char) ∉ S) :
    joinDot ((splitN '.' (f' ++ '.' :: S) (f' ++ '.' :: S).length).dropLast)
      = f' := by
  have hcnt : (f' ++ '.' :: S).count '.' < (f' ++ '.' :: S).length := by
    have h1 : (f' ++ '.' :: S).count '.'
        = f'.count '.' + ('.' :: S).count '.' := List.count_append ..
    have h2 : ('.' :: S).count '.' = S.count '.' + 1 := List.count_cons_self ..
    have h3 : S.count '.' = 0 := List.count_eq_zero.mpr hnd
    have h4 : f'.count '.' ≤ f'.length := List.count_le_length ..
    have h5 : 0 < S.length := List.length_pos.mpr hS
    have h6 : (f' ++ '.' :: S).length = f'.length + (S.length + 1) := by
      simp [List.length_append]
    omega
  rw [splitN_eq_splitAll '.' _ _ hcnt, splitAll_append_sep '.' S hnd f',
      List.dropLast_concat, joinDot_splitAll '.' rfl]

/-- Decompress-mode flags with the dotted suffix "a.b" configured. -/
def flDotSuffix : Flags :=
  { flDefault with decompress := true, suffix := ['a', '.', 'b'] }

/-- C3 counterexample: with configured suffix `"a.b"` and input
`"x.a.b"`, the code resolves the output to `"x.a"` (it drops only the
last dot-component), not to `"x"` (the input with the trailing
`".a.b"` removed) as the claim requires. -/
theorem dotted_suffix_counterexample :
    deriveOutName flDotSuffix ['x', '.', 'a', '.', 'b']
      = .ok (['x', '.', 'a'], []) ∧
    ['x', '.', 'a'] ≠ ['x'] := ⟨by rfl, by decide⟩

/-- C3 (amended): for every configured suffix S that is non-empty and
contains no dot, if the input's base name ends with `"."+S` and
stripping it leaves a non-empty name, the resolved output path equals
the input path with the trailing `"."+S` removed; if stripping leaves an
empty name, the job fails with the cannot-strip-suffix error. (When S
itself contains a dot, the code instead drops only the last
dot-component.) -/
theorem decompress_strip_suffix (fl : Flags) (inPath d f' : Str)
    (hdec : fl.decompress = true) (hS : fl.suffix ≠ [])
    (hnd : ('.' : Char) ∉ fl.suffix)
    (hsplit : pathSplit inPath = (d, f' ++ '.' :: fl.suffix)) :
    (f' ≠ [] → deriveOutName fl inPath = .ok (d ++ f', []) ∧
      (d ++ f') ++ ('.' :: fl.suffix) = inPath) ∧
    (f' = [] → deriveOutName fl inPath = .error (.cantStrip inPath)) := by
  have hconcat := pathSplit_append inPath
  rw [hsplit] at hconcat
  constructor
  · intro hne
    have hlen : (f' ++ '.' :: fl.suffix).length > ('.' :: fl.suffix).length := by
      have := List.length_pos.mpr hne
      simp [List.length_append]
      omega
    constructor
    · simp only [deriveOutName, hdec, if_true, hsplit]
      rw [if_pos (List.suffix_append f' ('.' :: fl.suffix)), if_pos hlen,
          strip_last_component f' fl.suffix hS hnd]
    · rw [List.append_assoc]
      exact hconcat
  · intro he
    subst he
    simp only [deriveOutName, hdec, if_true, hsplit]
    rw [if_pos (List.suffix_append [] ('.' :: fl.suffix))]
    simp

/-- Witness for C3 (amended) with suffix `"bz2"`, input `"a.bz2"`
(stripping works) — the hypotheses are discharged concretely. -/
theorem decompress_strip_suffix_witness :
    deriveOutName { flDefault with decompress := true } ['a', '.', 'b', 'z', '2']
        = .ok (['a'], []) ∧
    ['a'] ++ ('.' :: ['b', 'z', '2']) = ['a', '.', 'b', 'z', '2'] := by
  have h := decompress_strip_suffix { flDefault with decompress := true }
    ['a', '.', 'b', 'z', '2'] [] ['a'] rfl (by decide) (by decide) (by decide)
  have h2 := h.1 (by decide)
  exact ⟨h2.1, h2.2⟩

/-- The path `"data"`, which does not carry the `".bz2"` suffix. -/
def dataStr : Str := ['d', 'a', 't', 'a']

/-- Plain decompress-mode flags (`bzip2 -d`), keep unset. -/
def flDecomp : Flags := { flDefault with decompress := true }

/-- Filesystem with the single regular file `"data"`; all operations
succeed. -/
def fsData : FS :=
  { fsEmpty with lookup := fun p => if p = dataStr then some .file else none }

/-- C4 counterexample: decompressing the suffix-less file `"data"`
(flags `-d`, keep unset) succeeds, but the trace removes the original
input file — it is not left untouched as the claim requires. -/
theorem decompress_noSuffix_removes_input :
    (processFile flDecomp false fsData dataStr).err = none ∧
    Eff.removeE dataStr ∈ (processFile flDecomp false fsData dataStr).effs := by
  decide

/-- C4 (amended): a decompress-mode job to a named file whose base name
lacks the suffix emits a warning (not a hard failure) and writes to
`input + ".out"`; after success the input file is left untouched only
when keep is set — with keep unset the standard cleanup removes it. -/
theorem decompress_noSuffix_fallback (fl : Flags) (fs : FS) (inPath : Str)
    (htest : fl.test = false) (hstdout : fl.stdout = false)
    (hdec : fl.decompress = true) (hdash : inPath ≠ dash)
    (hS : fl.suffix ≠ [])
    (hnosuf : ¬ ('.' :: fl.suffix <:+ (pathSplit inPath).2))
    (hin : fs.lookup inPath = some .file)
    (hout : fs.lookup (inPath ++ outExt) = none)
    (hopen : fs.openOk inPath = true) (hdecode : fs.decodeOk = true)
    (hcreate : fs.createOk (inPath ++ outExt) = true)
    (hcopy : fs.copyOk = true) (hrem : fs.removeOk inPath = true) :
    (processFile fl false fs inPath).outPath = some (inPath ++ outExt) ∧
    Eff.warn ∈ (processFile fl false fs inPath).effs ∧
    (processFile fl false fs inPath).err = none ∧
    (fl.keep = true →
      Eff.removeE inPath ∉ (processFile fl false fs inPath).effs) ∧
    (fl.keep = false →
      Eff.removeE inPath ∈ (processFile fl false fs inPath).effs) := by
  have hcc : conflictCheck fl = none := by simp [conflictCheck, hstdout]
  have hder : deriveOutName fl inPath = .ok (inPath ++ outExt, [.warn]) := by
    simp only [deriveOutName, hdec, if_true]
    rw [if_neg hnosuf, pathSplit_append]
  have hci : checkInput fl false fs inPath =
      .ok (some (inPath ++ outExt),
        [.lstat inPath, .warn, .lstat (inPath ++ outExt)]) := by
    simp [checkInput, hin, hstdout, hS, hder, hout]
  have htr : transfer fl fs inPath (some (inPath ++ outExt)) =
      (none, [.openI inPath, .create (inPath ++ outExt)]) := by
    simp [transfer, hdash, hopen, hdec, hdecode, hcreate, hcopy]
  cases hk : fl.keep <;>
    simp [processFile, hcc, htest, hci, htr, cleanup, hstdout, hdash, hrem, hk]

/-- Witness for C4 (amended): flags `-d`, file `"data"` without the
suffix; all hypotheses discharged concretely. -/
theorem decompress_noSuffix_fallback_witness :
    (processFile flDecomp false fsData dataStr).outPath
        = some (dataStr ++ outExt) ∧
    Eff.warn ∈ (processFile flDecomp false fsData dataStr).effs ∧
    (processFile flDecomp false fsData dataStr).err = none ∧
    (flDecomp.keep = false →
      Eff.removeE dataStr ∈ (processFile flDecomp false fsData dataStr).effs) :=
  have h := decompress_noSuffix_fallback flDecomp fsData dataStr rfl rfl rfl
    (by decide) (by decide) (by decide) (by decide) (by decide) rfl rfl
    (by decide) rfl rfl
  ⟨h.1, h.2.1, h.2.2.1, h.2.2.2.2⟩

theorem checkInput_has_lstat (fl : Flags) (fs : FS) (p : Str) :
    (∀ e effs, checkInput fl false fs p = .error (e, effs) →
      Eff.lstat p ∈ effs) ∧
    (∀ o effs, checkInput fl false fs p = .ok (o, effs) →
      Eff.lstat p ∈ effs) := by
  cases hfs : fs.lookup p with
  | none => simp [checkInput, hfs]
  | some e =>
    cases e with
    | dir => simp [checkInput, hfs]
    | file =>
      by_cases hso : fl.stdout
      · simp [checkInput, hfs, hso]
      · by_cases hS : fl.suffix = []
        · simp [checkInput, hfs, hso, hS]
        · cases hder : deriveOutName fl p with
          | error e' => simp [checkInput, hfs, hso, hS, hder]
          | ok pr =>
            cases pr with
            | mk outP weffs =>
              cases hout : fs.lookup outP with
              | none => simp [checkInput, hfs, hso, hS, hder, hout]
              | some ent =>
                by_cases hf : fl.force
                · cases ent <;> by_cases hro : fs.removeOk outP <;>
                    simp [checkInput, hfs, hso, hS, hder, hout, hf, hro]
                · simp [checkInput, hfs, hso, hS, hder, hout, hf]

theorem testRun_no_lstat (fl : Flags) (fs : FS) (p q : Str) :
    Eff.lstat q ∉ (testRun fl fs p).effs := by
  unfold testRun
  split_ifs <;> simp

/-- C2 counterexample: the invocation `bzip2 -` — the argument `"-"`
explicit, so the zero-argument stdin flag is false — performs an
`os.Lstat` on the literal path `"-"` inside `processFile`, contradicting
the claim that no filesystem check is ever performed on `"-"`. -/
theorem dash_explicit_lstat :
    Eff.lstat dash ∈ (runOne flDefault false fsEmpty (fun _ => []) dash).2 := by
  decide

/-- C2 (amended): a `"-"` argument is dispatched as a standard-input job
directly — the dispatcher performs no `os.Stat` on it and hands it to
`processFile` verbatim — and no stat is performed on `"-"` in test mode
or when the zero-argument stdin flag is set; but in compress/decompress
mode with `"-"` given explicitly (stdin flag false), `processFile` does
perform an `os.Lstat` on the path `"-"`. -/
theorem dash_dispatch (fl : Flags) (stdinG : Bool) (fs : FS)
    (items : Str → List WalkItem) :
    (runOne fl stdinG fs items dash =
      ((processFile fl stdinG fs dash).err.isNone,
        (processFile fl stdinG fs dash).effs)) ∧
    (fl.test = true →
      ∀ q, Eff.lstat q ∉ (processFile fl stdinG fs dash).effs) ∧
    (stdinG = true →
      ∀ q, Eff.lstat q ∉ (processFile fl stdinG fs dash).effs) ∧
    (fl.test = false → stdinG = false → conflictCheck fl = none →
      Eff.lstat dash ∈ (processFile fl stdinG fs dash).effs) := by
  refine ⟨by simp [runOne], ?_, ?_, ?_⟩
  · intro ht q
    cases hcc : conflictCheck fl with
    | some e => simp [processFile, hcc]
    | none =>
      simp only [processFile, hcc, ht, if_true]
      exact testRun_no_lstat fl fs dash q
  · intro hstdin q
    subst hstdin
    cases hcc : conflictCheck fl with
    | some e => simp [processFile, hcc]
    | none =>
      by_cases ht : fl.test
      · simp only [processFile, hcc, ht, if_true]
        exact testRun_no_lstat fl fs dash q
      · by_cases hso : fl.stdout
        · by_cases hsS : fl.sSetByUser
          · simp [processFile, hcc, ht, checkInput, hso, hsS]
          · simp only [processFile, hcc, ht, checkInput, hso, hsS,
              Bool.not_true, if_false, if_true, Bool.false_eq_true,
              Bool.true_eq_false, ite_false, ite_true]
            simp only [transfer, cleanup]
            split_ifs <;> simp_all [dash]
        · simp [processFile, hcc, ht, checkInput, hso]
  · intro ht hstdin hcc
    subst hstdin
    simp only [processFile, hcc, ht, if_false, Bool.false_eq_true]
    cases hci : checkInput fl false fs dash with
    | error pr =>
      cases pr with
      | mk e effs =>
        simpa using (checkInput_has_lstat fl fs dash).1 e effs hci
    | ok pr =>
      cases pr with
      | mk outDest effs1 =>
        have hmem := (checkInput_has_lstat fl fs dash).2 outDest effs1 hci
        cases htr : transfer fl fs dash outDest with
        | mk terr effs2 =>
          dsimp only
          rw [htr]
          cases terr with
          | some e => simp [hmem]
          | none =>
            unfold cleanup
            split_ifs <;> simp [hmem]

/-- Witness for C2 (amended): default flags, explicit `"-"` argument. -/
theorem dash_dispatch_witness :
    Eff.lstat dash ∈ (processFile flDefault false fsEmpty dash).effs :=
  (dash_dispatch flDefault false fsEmpty (fun _ => [])).2.2.2 rfl rfl rfl

theorem deriveOutName_weffs (fl : Flags) (p outP : Str) (weffs : List Eff)
    (h : deriveOutName fl p = .ok (outP, weffs)) :
    weffs = [] ∨ weffs = [.warn] := by
  dsimp only [deriveOutName] at h
  repeat' split at h
  all_goals simp_all

/-- C7: a test-mode job (with no conflicting flags) derives no output
path, performs no create and no remove and no lstat, opens the input
when it is not standard input, and prints the verbose `OK` line exactly
on success — regardless of the force and keep flags. -/
theorem testMode_frame (fl : Flags) (stdinG : Bool) (fs : FS) (inPath : Str)
    (htest : fl.test = true) (hcc : conflictCheck fl = none) :
    (processFile fl stdinG fs inPath).outPath = none ∧
    (∀ q : Str, Eff.create q ∉ (processFile fl stdinG fs inPath).effs ∧
      Eff.removeE q ∉ (processFile fl stdinG fs inPath).effs) ∧
    (inPath ≠ dash →
      Eff.openI inPath ∈ (processFile fl stdinG fs inPath).effs) ∧
    ((processFile fl stdinG fs inPath).err = none → fl.verbose = true →
      Eff.okLine inPath ∈ (processFile fl stdinG fs inPath).effs) := by
  simp only [processFile, hcc, htest, if_true]
  unfold testRun
  split_ifs <;> simp_all

/-- Test-mode flags with verbose output. -/
def flTest : Flags := { flDefault with test := true, verbose := true }

/-- Witness for C7: `bzip2 -t -v data` on the existing file `"data"`. -/
theorem testMode_frame_witness :
    Eff.openI dataStr ∈ (processFile flTest false fsData dataStr).effs ∧
    Eff.okLine dataStr ∈ (processFile flTest false fsData dataStr).effs :=
  have h := testMode_frame flTest false fsData dataStr rfl rfl
  ⟨h.2.2.1 (by decide), h.2.2.2 (by rfl) rfl⟩

/-- C5: for a job writing to a named output file whose resolved output
path already exists: with force unset the job fails with the
output-exists error and performs no create and no remove; with force set
and an existing regular output file, the output is removed first (a
removal failure becomes the job's error and nothing is created), and on
full success with keep unset the input file is removed as well. -/
theorem overwrite_policy (fl : Flags) (fs : FS) (inPath outP : Str)
    (weffs : List Eff) (ent : Entry)
    (htest : fl.test = false) (hstdout : fl.stdout = false)
    (hdash : inPath ≠ dash) (hin : fs.lookup inPath = some .file)
    (hS : fl.suffix ≠ [])
    (hder : deriveOutName fl inPath = .ok (outP, weffs))
    (hout : fs.lookup outP = some ent) :
    (fl.force = false →
      (processFile fl false fs inPath).err = some (.outExists outP) ∧
      ∀ q : Str, Eff.create q ∉ (processFile fl false fs inPath).effs ∧
        Eff.removeE q ∉ (processFile fl false fs inPath).effs) ∧
    (fl.force = true → ent = .file →
      (fs.removeOk outP = false →
        (processFile fl false fs inPath).err = some (.removeErr outP) ∧
        ∀ q : Str, Eff.create q ∉ (processFile fl false fs inPath).effs) ∧
      (fs.removeOk outP = true →
        Eff.removeE outP ∈ (processFile fl false fs inPath).effs ∧
        (fs.openOk inPath = true → fs.decodeOk = true → fs.encodeOk = true →
          fs.createOk outP = true → fs.copyOk = true → fl.keep = false →
          fs.removeOk inPath = true →
          (processFile fl false fs inPath).err = none ∧
          Eff.removeE inPath ∈ (processFile fl false fs inPath).effs))) := by
  have hcc : conflictCheck fl = none := by simp [conflictCheck, hstdout]
  have hw := deriveOutName_weffs fl inPath outP weffs hder
  refine ⟨?_, ?_⟩
  · intro hf
    have hci : checkInput fl false fs inPath =
        .error (.outExists outP, [.lstat inPath] ++ weffs ++ [.lstat outP]) := by
      simp [checkInput, hin, hstdout, hS, hder, hout, hf]
    rcases hw with hw | hw <;> subst hw <;>
      simp [processFile, hcc, htest, hci]
  · intro hf hent
    subst hent
    refine ⟨?_, ?_⟩
    · intro hro
      have hci : checkInput fl false fs inPath =
          .error (.removeErr outP,
            [.lstat inPath] ++ weffs ++ [.lstat outP, .removeE outP]) := by
        simp [checkInput, hin, hstdout, hS, hder, hout, hf, hro]
      rcases hw with hw | hw <;> subst hw <;>
        simp [processFile, hcc, htest, hci]
    · intro hro
      have hci : checkInput fl false fs inPath =
          .ok (some outP,
            [.lstat inPath] ++ weffs ++ [.lstat outP, .removeE outP]) := by
        simp [checkInput, hin, hstdout, hS, hder, hout, hf, hro]
      constructor
      · simp only [processFile, hcc, htest, hci, Bool.false_eq_true, if_false]
        cases htr : transfer fl fs inPath (some outP) with
        | mk terr effs2 =>
          cases terr with
          | some e => simp
          | none =>
            unfold cleanup
            split_ifs <;> simp
      · intro hopen hdecode hencode hcreate hcopy hkeep hremin
        have htr : transfer fl fs inPath (some outP) =
            (none, [.openI inPath, .create outP]) := by
          simp [transfer, hdash, hopen, hdecode, hencode, hcreate, hcopy]
        simp [processFile, hcc, htest, hci, htr, cleanup, hstdout, hkeep,
          hdash, hremin]

/-- Compress flags with forced overwrite (`bzip2 -f a`). -/
def flForce : Flags := { flDefault with force := true }

/-- The path `"a"` and its compressed name `"a.bz2"`. -/
def aStr : Str := ['a']

/-- The compressed output path `"a.bz2"`. -/
def outBz : Str := ['a', '.', 'b', 'z', '2']

/-- Filesystem holding regular files `"a"` and `"a.bz2"`. -/
def fsForce : FS :=
  { fsEmpty with
    lookup := fun p => if p = aStr ∨ p = outBz then some .file else none }

/-- Witness for C5: `bzip2 -f a` with `"a.bz2"` already present — the
old output and (keep unset) the input both get removed, and the job
succeeds. -/
theorem overwrite_policy_witness :
    Eff.removeE outBz ∈ (processFile flForce false fsForce aStr).effs ∧
    (processFile flForce false fsForce aStr).err = none ∧
    Eff.removeE aStr ∈ (processFile flForce false fsForce aStr).effs :=
  have h := overwrite_policy flForce fsForce aStr outBz [] .file rfl rfl
    (by decide) (by decide) (by decide) (by rfl) (by decide)
  have h2 := (h.2 rfl rfl).2 rfl
  have h3 := h2.2 rfl rfl rfl rfl rfl rfl rfl
  ⟨h2.1, h3.1, h3.2⟩

theorem checkInput_stdout_dest (fl : Flags) (stdinG : Bool) (fs : FS)
    (inPath : Str) (outDest : Option Str) (effs1 : List Eff)
    (h : checkInput fl stdinG fs inPath = .ok (outDest, effs1)) :
    outDest.isSome = true ↔ fl.stdout = false := by
  by_cases hst : stdinG
  · by_cases hso : fl.stdout
    · by_cases hsS : fl.sSetByUser <;> simp_all [checkInput]
    · simp_all [checkInput]
  · cases hfs : fs.lookup inPath with
    | none => simp_all [checkInput]
    | some e =>
      cases e with
      | dir => simp_all [checkInput]
      | file =>
        by_cases hso : fl.stdout
        · simp_all [checkInput]
        · by_cases hS : fl.suffix = []
          · simp_all [checkInput]
          · cases hder : deriveOutName fl inPath with
            | error e' => simp_all [checkInput]
            | ok pr =>
              cases pr with
              | mk outP weffs =>
                cases hout : fs.lookup outP with
                | none =>
                  simp [checkInput, hst, hfs, hso, hS, hder, hout] at h
                  simp [← h.1, hso]
                | some ent =>
                  by_cases hf : fl.force
                  · cases ent with
                    | dir =>
                      by_cases hro : fs.removeOk outP <;> simp_all [checkInput]
                    | file =>
                      by_cases hro : fs.removeOk outP
                      · simp [checkInput, hst, hfs, hso, hS, hder, hout,
                          hf, hro] at h
                        simp [← h.1, hso]
                      · simp_all [checkInput]
                  · simp_all [checkInput]

/-- C6: for a job whose transfer completed successfully, the original
input is removed exactly when the destination is a named file
(equivalently: not standard output), keep is unset, and the input is not
standard input; and if that removal fails the job's error is the removal
error even though the transfer succeeded. -/
theorem cleanup_removal_policy (fl : Flags) (stdinG : Bool) (fs : FS)
    (inPath : Str) (outDest : Option Str) (effs1 effs2 : List Eff)
    (htest : fl.test = false) (hcc : conflictCheck fl = none)
    (hci : checkInput fl stdinG fs inPath = .ok (outDest, effs1))
    (htr : transfer fl fs inPath outDest = (none, effs2)) :
    (outDest.isSome = true ↔ fl.stdout = false) ∧
    processFile fl stdinG fs inPath =
      (if fl.stdout = false ∧ fl.keep = false ∧ inPath ≠ dash then
        (if fs.removeOk inPath then
          ⟨none, outDest, effs1 ++ effs2 ++ [.removeE inPath]⟩
        else
          ⟨some (.removeErr inPath), outDest,
            effs1 ++ effs2 ++ [.removeE inPath]⟩)
      else ⟨none, outDest, effs1 ++ effs2⟩) := by
  refine ⟨checkInput_stdout_dest fl stdinG fs inPath outDest effs1 hci, ?_⟩
  simp only [processFile, hcc, htest, hci, Bool.false_eq_true, if_false]
  rw [htr]
  unfold cleanup
  split_ifs <;> simp [List.append_assoc]

/-- Filesystem holding only the regular file `"a"`. -/
def fsA : FS :=
  { fsEmpty with lookup := fun p => if p = aStr then some .file else none }

/-- Witness for C6: plain `bzip2 a` — after the successful transfer the
input `"a"` is removed and the job succeeds. -/
theorem cleanup_removal_policy_witness :
    Eff.removeE aStr ∈ (processFile flDefault false fsA aStr).effs ∧
    (processFile flDefault false fsA aStr).err = none := by
  have h := (cleanup_removal_policy flDefault false fsA aStr (some outBz)
    [.lstat aStr, .lstat outBz] [.openI aStr, .create outBz]
    rfl rfl (by rfl) (by rfl)).2
  rw [h]
  decide

/-- C8: for every run that gets past flag validation, the exit status is
0 exactly when every job and traversal entry succeeded and 1 exactly
when at least one failed; and the job list is a per-path map, so one
job's outcome never changes the processing of sibling jobs. -/
theorem exit_status_aggregation (fl : Flags) (stdinG : Bool) (fs : FS)
    (items : Str → List WalkItem) (paths : List Str) :
    (mainExit fl stdinG fs items paths = 0 ↔
      ∀ r ∈ runAll fl stdinG fs items paths, r.1 = true) ∧
    (mainExit fl stdinG fs items paths = 1 ↔
      ∃ r ∈ runAll fl stdinG fs items paths, r.1 = false) ∧
    (∀ l2 : List Str, runAll fl stdinG fs items (paths ++ l2) =
      runAll fl stdinG fs items paths ++ runAll fl stdinG fs items l2) := by
  refine ⟨?_, ?_, ?_⟩
  · unfold mainExit
    split_ifs with h
    · simpa [List.all_eq_true] using h
    · rw [List.all_eq_true] at h
      push_neg at h
      constructor
      · intro h0
        exact absurd h0 (by decide)
      · intro hall
        obtain ⟨r, hr, hne⟩ := h
        exact absurd (hall r hr) hne
  · unfold mainExit
    split_ifs with h
    · rw [List.all_eq_true] at h
      constructor
      · intro h0
        exact absurd h0 (by decide)
      · rintro ⟨r, hr, hfalse⟩
        rw [h r hr] at hfalse
        exact absurd hfalse (by simp)
    · rw [List.all_eq_true] at h
      push_neg at h
      obtain ⟨r, hr, hne⟩ := h
      exact iff_of_true rfl ⟨r, hr, by simpa using hne⟩
  · intro l2
    unfold runAll
    exact List.map_append ..

/-- Witness for C8: an empty run exits 0. -/
theorem exit_status_aggregation_witness :
    mainExit flDefault false fsEmpty (fun _ => []) [] = 0 :=
  (exit_status_aggregation flDefault false fsEmpty (fun _ => []) []).1.mpr
    (by simp [runAll])

end Bzip2
